import Mathlib

/-!
Verification of the attestation extraction and canonical serialization
pipeline of `packages/falcon/scripts/generate_args.py`.

The Python module defines three functions over an external falcon signing
library (`SecretKey`, `decompress`, `HEAD_LEN`, `SALT_LEN`):

* `generate_attestation(sk, message)` slices a signature into salt and
  compressed-coefficient segments, decompresses, reduces coefficients
  modulo `Q = 12289`, recomputes the message point, and assembles a record;
* `generate_attestations(n, num_signatures)` builds one key and maps
  `generate_attestation` over the messages `"message #i"`;
* `format_args(args, n)` flattens the records into one length-prefixed
  integer list, renders each integer with Python's `hex`, and encodes the
  resulting strings as a JSON array.

External collaborators are modelled as explicit parameters (functions and
record fields), matching the spec's interface boundary.  Python byte
strings are `List Nat`, Python ints are `Int` (with casts where a Python
value is a length), and Python's `%` with a positive modulus agrees with
`Int.emod`.
-/

/-- The scheme's prime modulus, `Q = 12289` in the source. -/
def Q : Int := 12289

/-- An attestation record: the dict `{'s1': ..., 'pk': ..., 'msg_point': ...}`
returned by `generate_attestation`. -/
structure Attestation where
  s1 : List Int
  pk : List Int
  msg_point : List Int
deriving DecidableEq

/-- The external signing capability (`SecretKey` of the falcon library),
modelled at its interface boundary: dimension `n`, `sign`, the padded
signature byte length `sig_bytelen`, the public key vector `h`, and
`hash_to_point`.  Messages and signatures are byte lists. -/
structure SecretKey where
  n : Nat
  sign : List Nat → List Nat
  sig_bytelen : Nat
  h : List Int
  hash_to_point : List Nat → List Nat → List Int

/-- Embedding of `generate_attestation(sk, message)`.  The external
`decompress` function and the library constants `HEAD_LEN`, `SALT_LEN` are
explicit parameters.  Python slices `signature[a:b]` and `signature[a:]`
are `(·.drop a).take (b - a)` and `·.drop a` (both clamp, as Python does);
`x % Q` is `Int.emod`, which agrees with Python `%` for the positive
modulus `Q`. -/
def generate_attestation (decompress : List Nat → Int → Nat → List Int)
    (HEAD_LEN SALT_LEN : Nat) (sk : SecretKey) (message : List Nat) :
    Attestation :=
  let signature := sk.sign message
  let salt := (signature.drop HEAD_LEN).take SALT_LEN
  let enc_s := signature.drop (HEAD_LEN + SALT_LEN)
  let s1 := decompress enc_s ((sk.sig_bytelen : Int) - HEAD_LEN - SALT_LEN) sk.n
  let msg_point := sk.hash_to_point message salt
  { s1 := s1.map (fun x => x % Q), pk := sk.h, msg_point := msg_point }

/-- The bytes of the Python f-string `f'message #{i}'.encode()`: these are
ASCII strings, so UTF-8 bytes are the code points. -/
def msgBytes (i : Nat) : List Nat :=
  ("message #" ++ toString i).toList.map Char.toNat

/-- Embedding of `generate_attestations(n, num_signatures)`.  Construction
of the external `SecretKey(n)` is modelled by the parameter `keygen`. -/
def generate_attestations (keygen : Nat → SecretKey)
    (decompress : List Nat → Int → Nat → List Int)
    (HEAD_LEN SALT_LEN : Nat) (n num_signatures : Nat) : List Attestation :=
  let sk := keygen n
  (List.range num_signatures).map
    (fun i => generate_attestation decompress HEAD_LEN SALT_LEN sk (msgBytes i))

/-! ### Python `hex` -/

/-- Python's lowercase hexadecimal digit characters. -/
def hexDigitChar (d : Nat) : Char :=
  if d = 0 then '0' else if d = 1 then '1' else if d = 2 then '2'
  else if d = 3 then '3' else if d = 4 then '4' else if d = 5 then '5'
  else if d = 6 then '6' else if d = 7 then '7' else if d = 8 then '8'
  else if d = 9 then '9' else if d = 10 then 'a' else if d = 11 then 'b'
  else if d = 12 then 'c' else if d = 13 then 'd' else if d = 14 then 'e'
  else if d = 15 then 'f' else '*'

/-- Most-significant-first hex digits of `n`, accumulated into `acc`; fuel
makes the recursion structural, any fuel above the digit count is enough. -/
def pyHexDigitsAux : Nat → Nat → List Char → List Char
  | 0, _, acc => acc
  | fuel + 1, n, acc =>
    if n < 16 then hexDigitChar n :: acc
    else pyHexDigitsAux fuel (n / 16) (hexDigitChar (n % 16) :: acc)

/-- The digit characters of Python `hex(n)` after the `0x` prefix, for
`n : Nat`; `hex(0)` has the single digit `0`. -/
def pyHexDigits (n : Nat) : List Char :=
  pyHexDigitsAux (n + 1) n []

/-- Python's builtin `hex` on an `int`: `hex(26)` is `"0x1a"`, and a
negative argument is rendered with a leading minus, `hex(-26)` is
`"-0x1a"`. -/
def pyHex (i : Int) : String :=
  if i < 0 then ⟨'-' :: '0' :: 'x' :: pyHexDigits i.natAbs⟩
  else ⟨'0' :: 'x' :: pyHexDigits i.toNat⟩

/-! ### `json.dumps` on a list of plain strings -/

/-- The quotation-mark character. -/
def qm : Char := Char.ofNat 34

/-- Characters of a JSON array body (everything after `[`): each element
is a double-quoted string, elements are separated by `", "` (the default
`json.dumps` separator), and the body ends with `]`.  Faithful to
`json.dumps` for strings that contain no character needing an escape,
which is all `hex` ever produces. -/
def encItems : List (List Char) → List Char
  | [] => [']']
  | [t] => qm :: t ++ qm :: [']']
  | t :: ts => qm :: t ++ qm :: ',' :: ' ' :: encItems ts

/-- `json.dumps` of a list of escape-free strings. -/
def jsonDumpsStrings (toks : List String) : String :=
  ⟨'[' :: encItems (toks.map String.data)⟩

/-! ### `format_args` -/

/-- The flat integer list `serialized` built by `format_args`: the record
count, then for each record in order its three length-prefixed vectors
(the loop extends an accumulator), then the trailing dimension. -/
def serializedInts (args : List Attestation) (n : Nat) : List Int :=
  (args.foldl
    (fun acc arg =>
      acc ++ ([(arg.s1.length : Int)] ++ arg.s1
        ++ [(arg.pk.length : Int)] ++ arg.pk
        ++ [(arg.msg_point.length : Int)] ++ arg.msg_point))
    [(args.length : Int)]) ++ [(n : Int)]

/-- The hex-string tokens `list(map(hex, serialized))` of `format_args`. -/
def formatTokens (args : List Attestation) (n : Nat) : List String :=
  (serializedInts args n).map pyHex

/-- Embedding of `format_args(args, n)`:
`json.dumps(list(map(hex, serialized)))`. -/
def format_args (args : List Attestation) (n : Nat) : String :=
  jsonDumpsStrings (formatTokens args n)

/-! ### The spec's description of the flat layout and rendering

These definitions follow the specification's words for the serialized
layout — `[len(records)] ++ for each record [len(s1), s1.., len(pk),
pk.., len(msg_point), msg_point..] ++ [dimension]`, each integer rendered
as a lowercase `0x`-prefixed hex string — for comparison with
`format_args`. -/

/-- Spec layout of one record: each vector immediately preceded by its
length. -/
def specRec (arg : Attestation) : List Int :=
  [(arg.s1.length : Int)] ++ arg.s1
    ++ [(arg.pk.length : Int)] ++ arg.pk
    ++ [(arg.msg_point.length : Int)] ++ arg.msg_point

/-- Spec layout of all records in order. -/
def specRecs : List Attestation → List Int
  | [] => []
  | a :: as => specRec a ++ specRecs as

/-- The spec's flat integer sequence: record count, records, trailing
dimension. -/
def specFlat (args : List Attestation) (n : Nat) : List Int :=
  (args.length : Int) :: (specRecs args ++ [(n : Int)])

/-- The spec's rendering of one integer: a lowercase hexadecimal string
with a `0x` prefix (unsigned formatting). -/
def specHex (i : Int) : String :=
  ⟨'0' :: 'x' :: pyHexDigits i.toNat⟩

/-- The spec's serialized output: the flat sequence rendered to hex
strings and encoded as a JSON array of strings. -/
def specSerialize (args : List Attestation) (n : Nat) : String :=
  jsonDumpsStrings ((specFlat args n).map specHex)

/-! ### The decoder described by the spec's round-trip property

The spec mandates that the serialized output be parseable back: read the
record count, then for each record a length followed by that many
elements (three times), then the trailing dimension.  The definitions
below implement that decoder over the actual output string. -/

/-- Bool test for "not a quotation mark", used to scan a JSON string
token. -/
def notQm (c : Char) : Bool := c != qm

/-- Read one double-quoted token: expects a leading quote, takes
characters up to the closing quote. -/
def readToken (cs : List Char) : Option (List Char × List Char) :=
  match cs with
  | [] => none
  | c :: rest =>
    if c = qm then
      match rest.dropWhile notQm with
      | d :: rest2 =>
        if d = qm then some (rest.takeWhile notQm, rest2) else none
      | [] => none
    else none

/-- Parse the body of a JSON array of strings (everything after `[`):
quoted tokens separated by `", "`, terminated by `]`.  Fuel bounds the
recursion; any fuel above the token count is enough. -/
def parseItems : Nat → List Char → Option (List (List Char))
  | 0, _ => none
  | fuel + 1, cs =>
    if cs = [']'] then some []
    else
      match readToken cs with
      | none => none
      | some (tok, rest) =>
        match rest with
        | [c] => if c = ']' then some [tok] else none
        | c1 :: c2 :: rest2 =>
          if c1 = ',' ∧ c2 = ' ' then
            match parseItems fuel rest2 with
            | some toks => some (tok :: toks)
            | none => none
          else none
        | [] => none

/-- Parse a JSON array of strings into its raw character tokens. -/
def parseArray (cs : List Char) : Option (List (List Char)) :=
  match cs with
  | c :: rest => if c = '[' then parseItems (rest.length + 1) rest else none
  | [] => none

/-- Numeric value of a lowercase hex digit character. -/
def hexCharVal (c : Char) : Nat :=
  if c = '0' then 0 else if c = '1' then 1 else if c = '2' then 2
  else if c = '3' then 3 else if c = '4' then 4 else if c = '5' then 5
  else if c = '6' then 6 else if c = '7' then 7 else if c = '8' then 8
  else if c = '9' then 9 else if c = 'a' then 10 else if c = 'b' then 11
  else if c = 'c' then 12 else if c = 'd' then 13 else if c = 'e' then 14
  else if c = 'f' then 15 else 0

/-- Value of a most-significant-first hex digit string. -/
def parseHexDigits (ds : List Char) : Nat :=
  ds.foldl (fun acc c => acc * 16 + hexCharVal c) 0

/-- Parse one token of Python `hex` output back to an integer:
`0x`-prefixed digits, or `-0x`-prefixed digits for a negative value. -/
def parseHexToken (cs : List Char) : Option Int :=
  match cs with
  | '-' :: '0' :: 'x' :: ds =>
    if ds = [] then none else some (-(parseHexDigits ds : Int))
  | '0' :: 'x' :: ds => some ((parseHexDigits ds : Int))
  | _ => none

/-- Parse every token of the array to an integer. -/
def parseAllTokens : List (List Char) → Option (List Int)
  | [] => some []
  | t :: ts =>
    match parseHexToken t, parseAllTokens ts with
    | some i, some is => some (i :: is)
    | _, _ => none

/-- Read one length-prefixed vector from the flat integer list. -/
def readVec : List Int → Option (List Int × List Int)
  | [] => none
  | len :: rest =>
    if 0 ≤ len ∧ len.toNat ≤ rest.length then
      some (rest.take len.toNat, rest.drop len.toNat)
    else none

/-- Read one record: three length-prefixed vectors in order. -/
def readRec (l : List Int) : Option (Attestation × List Int) :=
  (readVec l).bind fun p1 =>
    (readVec p1.2).bind fun p2 =>
      (readVec p2.2).bind fun p3 =>
        some (⟨p1.1, p2.1, p3.1⟩, p3.2)

/-- Read the given number of records in order. -/
def readRecs : Nat → List Int → Option (List Attestation × List Int)
  | 0, l => some ([], l)
  | k + 1, l =>
    (readRec l).bind fun p =>
      (readRecs k p.2).bind fun q => some (p.1 :: q.1, q.2)

/-- Decode the flat integer list: record count, that many records, then
exactly the trailing dimension. -/
def decodeFlat (l : List Int) : Option (List Attestation × Nat) :=
  match l with
  | [] => none
  | c :: rest =>
    if 0 ≤ c then
      match readRecs c.toNat rest with
      | some (as, [d]) => if 0 ≤ d then some (as, d.toNat) else none
      | _ => none
    else none

/-- The full decoder of the serializer's output string: parse the JSON
array, parse each hex token, decode the flat integer list. -/
def decodeOutput (s : String) : Option (List Attestation × Nat) :=
  match parseArray s.data with
  | some toks =>
    match parseAllTokens toks with
    | some ints => decodeFlat ints
    | none => none
  | none => none

/-! ### Non-negativity of record contents -/

/-- Every element of every vector of the record is non-negative. -/
def attNonneg (a : Attestation) : Prop :=
  (∀ x ∈ a.s1, 0 ≤ x) ∧ (∀ x ∈ a.pk, 0 ≤ x) ∧ (∀ x ∈ a.msg_point, 0 ≤ x)

instance (a : Attestation) : Decidable (attNonneg a) := by
  unfold attNonneg; infer_instance

/-- Every record of the list has only non-negative elements. -/
def argsNonneg (args : List Attestation) : Prop :=
  ∀ a ∈ args, attNonneg a

instance (args : List Attestation) : Decidable (argsNonneg args) := by
  unfold argsNonneg; infer_instance

/-! ### Concrete collaborators and records used to instantiate theorems -/

/-- A decompressor returning residues outside the canonical range. -/
def decompressC3 : List Nat → Int → Nat → List Int := fun _ _ _ => [-5, 20000]

/-- A decompressor returning the empty vector. -/
def decompressNil : List Nat → Int → Nat → List Int := fun _ _ _ => []

/-- A decompressor exposing the byte length of its input. -/
def decompressLen : List Nat → Int → Nat → List Int :=
  fun enc _ _ => [(enc.length : Int)]

/-- A capability with a three-byte signature. -/
def skC3 : SecretKey :=
  ⟨2, fun _ => [0, 1, 2], 3, [], fun _ _ => []⟩

/-- A capability whose signatures are two bytes long — shorter than
`HEAD_LEN + SALT_LEN` for the library constants 1 and 40 — and whose
point hasher exposes the length of the salt it receives. -/
def skShort : SecretKey :=
  ⟨1, fun _ => [9, 2], 2, [5], fun _ salt => [(salt.length : Int)]⟩

/-- A capability whose signature length equals its `sig_bytelen`. -/
def skFull : SecretKey :=
  ⟨1, fun _ => [1, 2, 3, 4, 5], 5, [7], fun _ _ => [0]⟩

/-- A key generator for instantiating `generate_attestations`. -/
def keygenW : Nat → SecretKey :=
  fun n => ⟨n, fun m => m, 3, [2], fun m salt => [(m.length : Int), (salt.length : Int)]⟩

/-- A record with three all-zero vectors of length 512. -/
def attRep512 : Attestation :=
  ⟨List.replicate 512 0, List.replicate 512 0, List.replicate 512 0⟩

/-- A record with three vectors of length 1. -/
def attOne : Attestation := ⟨[0], [0], [0]⟩

/-- A record whose `s1` contains a negative number. -/
def attNeg : Attestation := ⟨[-1], [], []⟩

/-- A small record with non-negative entries. -/
def attSmall : Attestation := ⟨[1, 2], [3], [0]⟩

/-! ### Lemmas: hex rendering and parsing -/

theorem hexCharVal_hexDigitChar : ∀ d < 16, hexCharVal (hexDigitChar d) = d := by
  decide

theorem hexDigitChar_lt16_ne_qm : ∀ d, d < 16 → hexDigitChar d ≠ qm := by
  decide

theorem hexDigitChar_ge16 (d : Nat) (h : ¬ d < 16) : hexDigitChar d = '*' := by
  have hne : ∀ k : Nat, k < 16 → ¬ d = k := by omega
  unfold hexDigitChar
  rw [if_neg (hne 0 (by norm_num)), if_neg (hne 1 (by norm_num)),
    if_neg (hne 2 (by norm_num)), if_neg (hne 3 (by norm_num)),
    if_neg (hne 4 (by norm_num)), if_neg (hne 5 (by norm_num)),
    if_neg (hne 6 (by norm_num)), if_neg (hne 7 (by norm_num)),
    if_neg (hne 8 (by norm_num)), if_neg (hne 9 (by norm_num)),
    if_neg (hne 10 (by norm_num)), if_neg (hne 11 (by norm_num)),
    if_neg (hne 12 (by norm_num)), if_neg (hne 13 (by norm_num)),
    if_neg (hne 14 (by norm_num)), if_neg (hne 15 (by norm_num))]

theorem hexDigitChar_ne_qm (d : Nat) : hexDigitChar d ≠ qm := by
  by_cases h : d < 16
  · exact hexDigitChar_lt16_ne_qm d h
  · rw [hexDigitChar_ge16 d h]
    decide

theorem pyHexDigitsAux_acc (fuel : Nat) :
    ∀ (n : Nat) (acc : List Char),
      pyHexDigitsAux fuel n acc = pyHexDigitsAux fuel n [] ++ acc := by
  induction fuel with
  | zero => intro n acc; simp [pyHexDigitsAux]
  | succ fuel ih =>
    intro n acc
    by_cases h : n < 16
    · simp [pyHexDigitsAux, h]
    · simp only [pyHexDigitsAux, if_neg h]
      rw [ih (n / 16) (hexDigitChar (n % 16) :: acc),
        ih (n / 16) [hexDigitChar (n % 16)]]
      simp

theorem mem_pyHexDigitsAux (fuel : Nat) :
    ∀ (n : Nat) (acc : List Char) (c : Char),
      c ∈ pyHexDigitsAux fuel n acc → c ∈ acc ∨ ∃ d, c = hexDigitChar d := by
  induction fuel with
  | zero => intro n acc c hc; exact Or.inl hc
  | succ fuel ih =>
    intro n acc c hc
    by_cases h : n < 16
    · simp [pyHexDigitsAux, h] at hc
      rcases hc with hc | hc
      · exact Or.inr ⟨n, hc⟩
      · exact Or.inl hc
    · simp only [pyHexDigitsAux, if_neg h] at hc
      rcases ih (n / 16) (hexDigitChar (n % 16) :: acc) c hc with hc' | hc'
      · rcases List.mem_cons.mp hc' with hc'' | hc''
        · exact Or.inr ⟨n % 16, hc''⟩
        · exact Or.inl hc''
      · exact Or.inr hc'

theorem pyHexDigits_ne_nil (n : Nat) : pyHexDigits n ≠ [] := by
  unfold pyHexDigits pyHexDigitsAux
  by_cases h : n < 16
  · simp [h]
  · simp only [if_neg h]
    rw [pyHexDigitsAux_acc]
    simp

theorem qm_not_mem_pyHexDigits (n : Nat) : qm ∉ pyHexDigits n := by
  intro hm
  rcases mem_pyHexDigitsAux _ _ _ _ hm with h | ⟨d, h⟩
  · simp at h
  · exact hexDigitChar_ne_qm d h.symm

theorem foldl_hexVal_pyHexDigitsAux (fuel : Nat) :
    ∀ n : Nat, n < 16 ^ fuel → ∀ a : Nat,
      List.foldl (fun acc c => acc * 16 + hexCharVal c) a (pyHexDigitsAux fuel n []) =
        a * 16 ^ (pyHexDigitsAux fuel n []).length + n := by
  induction fuel with
  | zero =>
    intro n hn a
    interval_cases n
    simp [pyHexDigitsAux]
  | succ fuel ih =>
    intro n hn a
    by_cases h : n < 16
    · simp [pyHexDigitsAux, h, hexCharVal_hexDigitChar n h]
    · have hdiv : n / 16 < 16 ^ fuel := by
        rw [Nat.div_lt_iff_lt_mul (by norm_num : 0 < 16)]
        rw [pow_succ] at hn
        exact hn
      simp only [pyHexDigitsAux, if_neg h]
      rw [pyHexDigitsAux_acc fuel (n / 16)]
      rw [List.foldl_append, ih (n / 16) hdiv a]
      simp only [List.foldl_cons, List.foldl_nil, List.length_append,
        List.length_cons, List.length_nil, Nat.zero_add]
      rw [hexCharVal_hexDigitChar (n % 16) (Nat.mod_lt n (by norm_num))]
      rw [pow_succ, Nat.add_mul, Nat.mul_assoc, Nat.add_assoc,
        Nat.mul_comm (n / 16) 16, Nat.div_add_mod]

theorem parseHexDigits_pyHexDigits (n : Nat) :
    parseHexDigits (pyHexDigits n) = n := by
  have hlt : n < 16 ^ (n + 1) :=
    lt_of_lt_of_le (Nat.lt_pow_self (by norm_num) n)
      (Nat.pow_le_pow_right (by norm_num) (Nat.le_succ n))
  have := foldl_hexVal_pyHexDigitsAux (n + 1) n hlt 0
  simpa [parseHexDigits, pyHexDigits] using this

theorem qm_not_mem_pyHex (i : Int) : qm ∉ (pyHex i).data := by
  unfold pyHex
  by_cases h : i < 0
  · rw [if_pos h]
    show qm ∉ '-' :: '0' :: 'x' :: pyHexDigits i.natAbs
    intro hmem
    rcases List.mem_cons.mp hmem with h1 | h1
    · exact absurd h1 (by decide)
    rcases List.mem_cons.mp h1 with h2 | h2
    · exact absurd h2 (by decide)
    rcases List.mem_cons.mp h2 with h3 | h3
    · exact absurd h3 (by decide)
    exact qm_not_mem_pyHexDigits _ h3
  · rw [if_neg h]
    show qm ∉ '0' :: 'x' :: pyHexDigits i.toNat
    intro hmem
    rcases List.mem_cons.mp hmem with h1 | h1
    · exact absurd h1 (by decide)
    rcases List.mem_cons.mp h1 with h2 | h2
    · exact absurd h2 (by decide)
    exact qm_not_mem_pyHexDigits _ h2

theorem parseHexToken_pyHex (i : Int) : parseHexToken (pyHex i).data = some i := by
  unfold pyHex
  by_cases h : i < 0
  · rw [if_pos h]
    show parseHexToken ('-' :: '0' :: 'x' :: pyHexDigits i.natAbs) = some i
    rcases hd : pyHexDigits i.natAbs with _ | ⟨e, es⟩
    · exact absurd hd (pyHexDigits_ne_nil _)
    · have heq : parseHexToken ('-' :: '0' :: 'x' :: e :: es) =
          some (-(parseHexDigits (e :: es) : Int)) := by
        simp [parseHexToken]
      rw [heq, ← hd, parseHexDigits_pyHexDigits]
      congr 1
      omega
  · rw [if_neg h]
    show parseHexToken ('0' :: 'x' :: pyHexDigits i.toNat) = some i
    have heq : parseHexToken ('0' :: 'x' :: pyHexDigits i.toNat) =
        some ((parseHexDigits (pyHexDigits i.toNat) : Int)) := by
      simp [parseHexToken]
    rw [heq, parseHexDigits_pyHexDigits]
    congr 1
    omega

/-! ### Lemmas: the JSON array layer -/

theorem takeWhile_notQm_append (t : List Char) (rest : List Char) (h : qm ∉ t) :
    (t ++ qm :: rest).takeWhile notQm = t := by
  induction t with
  | nil => simp [List.takeWhile, notQm]
  | cons c cs ih =>
    have hc : c ≠ qm := fun hc => h (by simp [hc])
    have hcs : qm ∉ cs := fun hm => h (by simp [hm])
    simp only [List.cons_append, List.takeWhile_cons]
    rw [if_pos (by simp [notQm, hc]), ih hcs]

theorem dropWhile_notQm_append (t : List Char) (rest : List Char) (h : qm ∉ t) :
    (t ++ qm :: rest).dropWhile notQm = qm :: rest := by
  induction t with
  | nil => simp [List.dropWhile, notQm]
  | cons c cs ih =>
    have hc : c ≠ qm := fun hc => h (by simp [hc])
    have hcs : qm ∉ cs := fun hm => h (by simp [hm])
    simp only [List.cons_append, List.dropWhile_cons]
    rw [if_pos (by simp [notQm, hc]), ih hcs]

theorem readToken_quoted (t : List Char) (rest : List Char) (h : qm ∉ t) :
    readToken (qm :: t ++ qm :: rest) = some (t, rest) := by
  show (if qm = qm then
      match (t ++ qm :: rest).dropWhile notQm with
      | d :: rest2 =>
        if d = qm then some ((t ++ qm :: rest).takeWhile notQm, rest2) else none
      | [] => none
    else none) = some (t, rest)
  rw [if_pos rfl, dropWhile_notQm_append t rest h]
  show (if qm = qm then some ((t ++ qm :: rest).takeWhile notQm, rest) else none) =
    some (t, rest)
  rw [if_pos rfl, takeWhile_notQm_append t rest h]

theorem length_lt_length_encItems (toks : List (List Char)) :
    toks.length < (encItems toks).length := by
  induction toks with
  | nil => simp [encItems]
  | cons t ts ih =>
    cases ts with
    | nil => simp [encItems]
    | cons t' ts' =>
      show (t :: t' :: ts').length < (qm :: t ++ qm :: ',' :: ' ' :: encItems (t' :: ts')).length
      simp only [List.length_cons, List.length_append] at ih ⊢
      omega

theorem parseItems_encItems :
    ∀ (toks : List (List Char)) (fuel : Nat), toks.length < fuel →
      (∀ t ∈ toks, qm ∉ t) →
      parseItems fuel (encItems toks) = some toks := by
  intro toks
  induction toks with
  | nil =>
    intro fuel hfuel _
    cases fuel with
    | zero => omega
    | succ f => simp [parseItems, encItems]
  | cons t ts ih =>
    intro fuel hfuel hqm
    cases fuel with
    | zero => omega
    | succ f =>
      have ht : qm ∉ t := hqm t (by simp)
      cases ts with
      | nil =>
        show parseItems (f + 1) (qm :: t ++ qm :: [']']) = some [t]
        unfold parseItems
        rw [if_neg (by simp [show qm ≠ '[' from by decide, show qm ≠ ']' from by decide])]
        rw [readToken_quoted t [']'] ht]
        simp
      | cons t' ts' =>
        show parseItems (f + 1)
            (qm :: t ++ qm :: ',' :: ' ' :: encItems (t' :: ts')) = some (t :: t' :: ts')
        unfold parseItems
        rw [if_neg (by simp [show qm ≠ ']' from by decide])]
        rw [readToken_quoted t (',' :: ' ' :: encItems (t' :: ts')) ht]
        have henc : encItems (t' :: ts') ≠ [] := by
          cases ts' <;> simp [encItems]
        rcases he : encItems (t' :: ts') with _ | ⟨c, cs⟩
        · exact absurd he henc
        · show (match ',' :: ' ' :: c :: cs with
            | [c] => if c = ']' then some [t] else none
            | c1 :: c2 :: rest2 =>
              if c1 = ',' ∧ c2 = ' ' then
                match parseItems f rest2 with
                | some toks => some (t :: toks)
                | none => none
              else none
            | [] => none) = some (t :: t' :: ts')
          show (if ',' = ',' ∧ ' ' = ' ' then
              match parseItems f (c :: cs) with
              | some toks => some (t :: toks)
              | none => none
            else none) = some (t :: t' :: ts')
          rw [if_pos ⟨rfl, rfl⟩, ← he,
            ih f (by simp at hfuel ⊢; omega) (fun u hu => hqm u (by simp [hu]))]

theorem parseArray_encItems (toks : List (List Char))
    (h : ∀ t ∈ toks, qm ∉ t) :
    parseArray ('[' :: encItems toks) = some toks := by
  show (if '[' = '[' then
      parseItems ((encItems toks).length + 1) (encItems toks)
    else none) = some toks
  rw [if_pos rfl]
  exact parseItems_encItems toks ((encItems toks).length + 1)
    (Nat.lt_succ_of_lt (length_lt_length_encItems toks)) h

theorem parseAllTokens_pyHex (l : List Int) :
    parseAllTokens (l.map (fun i => (pyHex i).data)) = some l := by
  induction l with
  | nil => simp [parseAllTokens]
  | cons i is ih =>
    show (match parseHexToken (pyHex i).data,
        parseAllTokens (is.map (fun i => (pyHex i).data)) with
      | some j, some js => some (j :: js)
      | _, _ => none) = some (i :: is)
    rw [parseHexToken_pyHex, ih]

/-! ### Lemmas: the flat integer layer -/

theorem serializedInts_foldl (args : List Attestation) :
    ∀ init : List Int,
      args.foldl
        (fun acc arg =>
          acc ++ ([(arg.s1.length : Int)] ++ arg.s1
            ++ [(arg.pk.length : Int)] ++ arg.pk
            ++ [(arg.msg_point.length : Int)] ++ arg.msg_point)) init =
        init ++ specRecs args := by
  induction args with
  | nil => intro init; simp [specRecs]
  | cons a as ih =>
    intro init
    show as.foldl _ (init ++ _) = init ++ specRecs (a :: as)
    rw [ih (init ++ ([(a.s1.length : Int)] ++ a.s1
      ++ [(a.pk.length : Int)] ++ a.pk
      ++ [(a.msg_point.length : Int)] ++ a.msg_point))]
    show init ++ specRec a ++ specRecs as = init ++ specRecs (a :: as)
    rw [List.append_assoc]
    rfl

theorem serializedInts_eq (args : List Attestation) (n : Nat) :
    serializedInts args n = specFlat args n := by
  unfold serializedInts specFlat
  rw [serializedInts_foldl args [(args.length : Int)]]
  simp

theorem readVec_encode (v : List Int) (tail : List Int) :
    readVec ((v.length : Int) :: (v ++ tail)) = some (v, tail) := by
  show (if 0 ≤ (v.length : Int) ∧ (v.length : Int).toNat ≤ (v ++ tail).length then
      some ((v ++ tail).take (v.length : Int).toNat, (v ++ tail).drop (v.length : Int).toNat)
    else none) = some (v, tail)
  rw [if_pos ⟨Int.natCast_nonneg v.length, by simp⟩]
  simp [List.take_left, List.drop_left]

theorem readRec_encode (a : Attestation) (rest : List Int) :
    readRec (specRec a ++ rest) = some (a, rest) := by
  have hshape : specRec a ++ rest =
      (a.s1.length : Int) :: (a.s1 ++ ((a.pk.length : Int) ::
        (a.pk ++ ((a.msg_point.length : Int) :: (a.msg_point ++ rest))))) := by
    simp [specRec]
  rw [readRec, hshape, readVec_encode]
  simp only [Option.some_bind]
  rw [readVec_encode]
  simp only [Option.some_bind]
  rw [readVec_encode]
  simp only [Option.some_bind]

theorem readRecs_encode (args : List Attestation) (rest : List Int) :
    readRecs args.length (specRecs args ++ rest) = some (args, rest) := by
  induction args with
  | nil => simp [readRecs, specRecs]
  | cons a as ih =>
    show readRecs (as.length + 1) (specRec a ++ specRecs as ++ rest) = some (a :: as, rest)
    rw [readRecs, List.append_assoc, readRec_encode]
    simp only [Option.some_bind]
    rw [ih]
    simp only [Option.some_bind]

theorem decodeFlat_specFlat (args : List Attestation) (n : Nat) :
    decodeFlat (specFlat args n) = some (args, n) := by
  show decodeFlat ((args.length : Int) :: (specRecs args ++ [(n : Int)])) = some (args, n)
  rw [decodeFlat]
  rw [if_pos (Int.natCast_nonneg args.length)]
  have htn : ((args.length : Int)).toNat = args.length := by simp
  rw [htn, readRecs_encode args [(n : Int)]]
  show (if 0 ≤ (n : Int) then some (args, ((n : Int)).toNat) else none) = some (args, n)
  rw [if_pos (Int.natCast_nonneg n)]
  simp

/-! ### The decoder inverts `format_args` -/

theorem decodeOutput_format_args (args : List Attestation) (n : Nat) :
    decodeOutput (format_args args n) = some (args, n) := by
  have hdata : (format_args args n).data =
      '[' :: encItems ((serializedInts args n).map (fun i => (pyHex i).data)) := by
    show ('[' :: encItems (((serializedInts args n).map pyHex).map String.data)) = _
    rw [List.map_map]
    rfl
  have h1 : parseArray (format_args args n).data =
      some ((serializedInts args n).map (fun i => (pyHex i).data)) := by
    rw [hdata]
    refine parseArray_encItems _ ?_
    intro t ht
    rcases List.mem_map.mp ht with ⟨i, _, rfl⟩
    exact qm_not_mem_pyHex i
  rw [decodeOutput, h1]
  show (match parseAllTokens ((serializedInts args n).map (fun i => (pyHex i).data)) with
    | some ints => decodeFlat ints
    | none => none) = some (args, n)
  rw [parseAllTokens_pyHex]
  show decodeFlat (serializedInts args n) = some (args, n)
  rw [serializedInts_eq]
  exact decodeFlat_specFlat args n

/-! ### Lemmas: non-negativity and token shape -/

theorem specRecs_nonneg (args : List Attestation) (h : argsNonneg args) :
    ∀ i ∈ specRecs args, 0 ≤ i := by
  induction args with
  | nil => simp [specRecs]
  | cons a as ih =>
    intro i hi
    rw [specRecs] at hi
    rcases List.mem_append.mp hi with hi | hi
    · obtain ⟨hs1, hpk, hmp⟩ := h a (by simp)
      simp only [specRec, List.append_assoc, List.mem_append, List.mem_cons,
        List.mem_singleton, List.not_mem_nil, or_false] at hi
      rcases hi with hi | hi | hi | hi | hi | hi
      · rw [hi]; exact Int.natCast_nonneg _
      · exact hs1 i hi
      · rw [hi]; exact Int.natCast_nonneg _
      · exact hpk i hi
      · rw [hi]; exact Int.natCast_nonneg _
      · exact hmp i hi
    · exact ih (fun b hb => h b (by simp [hb])) i hi

theorem specFlat_nonneg (args : List Attestation) (n : Nat) (h : argsNonneg args) :
    ∀ i ∈ specFlat args n, 0 ≤ i := by
  intro i hi
  simp only [specFlat, List.mem_cons, List.mem_append, List.mem_singleton,
    List.not_mem_nil, or_false] at hi
  rcases hi with hi | hi | hi
  · rw [hi]; exact Int.natCast_nonneg _
  · exact specRecs_nonneg args h i hi
  · rw [hi]; exact Int.natCast_nonneg _

theorem specRecs_length (args : List Attestation) (n : Nat)
    (h : ∀ a ∈ args, a.s1.length = n ∧ a.pk.length = n ∧ a.msg_point.length = n) :
    (specRecs args).length = args.length * (3 + 3 * n) := by
  induction args with
  | nil => simp [specRecs]
  | cons a as ih =>
    obtain ⟨h1, h2, h3⟩ := h a (by simp)
    have has := ih (fun b hb => h b (by simp [hb]))
    simp only [specRecs, specRec, List.length_append, List.length_cons,
      List.length_singleton, List.length_nil, h1, h2, h3, has]
    ring

theorem formatTokens_head (args : List Attestation) (n : Nat) :
    (formatTokens args n).head? = some (pyHex (args.length : Int)) := by
  simp only [formatTokens, serializedInts_eq, specFlat, List.map_cons]
  rfl

theorem formatTokens_getLast (args : List Attestation) (n : Nat) :
    (formatTokens args n).getLast? = some (pyHex (n : Int)) := by
  simp only [formatTokens, serializedInts_eq, specFlat, List.map_cons,
    List.map_append, List.map_cons, List.map_nil]
  show (((pyHex (args.length : Int)) :: (specRecs args).map pyHex)
    ++ [pyHex (n : Int)]).getLast? = some (pyHex (n : Int))
  exact List.getLast?_concat _

theorem formatTokens_length (args : List Attestation) (n : Nat)
    (h : ∀ a ∈ args, a.s1.length = n ∧ a.pk.length = n ∧ a.msg_point.length = n) :
    (formatTokens args n).length = 2 + args.length * (3 + 3 * n) := by
  simp only [formatTokens, List.length_map, serializedInts_eq, specFlat,
    List.length_cons, List.length_append, List.length_singleton, List.length_nil]
  rw [specRecs_length args n h]
  omega

theorem attRep512_lengths :
    ∀ a ∈ [attRep512], a.s1.length = 512 ∧ a.pk.length = 512 ∧ a.msg_point.length = 512 := by
  intro a ha
  rw [List.mem_singleton] at ha
  subst ha
  exact ⟨List.length_replicate _ _, List.length_replicate _ _, List.length_replicate _ _⟩

/-! ### Claim theorems -/

/-- C1: for every record list and dimension, `format_args` (with all
vector elements non-negative, the domain on which unsigned hexadecimal
rendering is defined) returns exactly the JSON array of strings obtained
by flattening `[count] ++ per-record length-prefixed vectors ++ [n]` and
rendering each integer as a lowercase `0x`-prefixed hex string. -/
theorem format_args_agrees_with_spec (args : List Attestation) (n : Nat)
    (h : argsNonneg args) : format_args args n = specSerialize args n := by
  have hmap : (specFlat args n).map pyHex = (specFlat args n).map specHex := by
    apply List.map_congr_left
    intro i hi
    have h0 : 0 ≤ i := specFlat_nonneg args n h i hi
    unfold pyHex
    rw [if_neg (by omega)]
    rfl
  rw [format_args, formatTokens, serializedInts_eq, specSerialize, hmap]

theorem format_args_agrees_with_spec_witness :
    argsNonneg [attSmall] ∧ format_args [attSmall] 5 = specSerialize [attSmall] 5 :=
  ⟨by decide, format_args_agrees_with_spec [attSmall] 5 (by decide)⟩

/-- C2: `format_args` is injective on records with non-negative vectors
together with the dimension — equal serialized outputs force equal record
lists and dimensions, because the length-prefixed layout is decodable. -/
theorem format_args_injective (a : List Attestation) (n : Nat)
    (a' : List Attestation) (n' : Nat)
    (h1 : argsNonneg a) (h2 : argsNonneg a')
    (heq : format_args a n = format_args a' n') : a = a' ∧ n = n' := by
  have hdec := congrArg decodeOutput heq
  rw [decodeOutput_format_args, decodeOutput_format_args] at hdec
  have h3 := Option.some.inj hdec
  exact ⟨congrArg Prod.fst h3, congrArg Prod.snd h3⟩

theorem format_args_injective_witness :
    argsNonneg [attSmall] ∧ ([attSmall] = [attSmall] ∧ 3 = 3) :=
  ⟨by decide, format_args_injective [attSmall] 3 [attSmall] 3 (by decide) (by decide) rfl⟩

/-- C3: every element of the `s1` vector of a record built by
`generate_attestation` lies in `[0, 12289)`, whatever integer vector the
external decompressor returned (negative residues included). -/
theorem generate_attestation_s1_range
    (decompress : List Nat → Int → Nat → List Int) (HEAD_LEN SALT_LEN : Nat)
    (sk : SecretKey) (message : List Nat) :
    ∀ x ∈ (generate_attestation decompress HEAD_LEN SALT_LEN sk message).s1,
      0 ≤ x ∧ x < 12289 := by
  intro x hx
  have hs1 : (generate_attestation decompress HEAD_LEN SALT_LEN sk message).s1 =
      (decompress ((sk.sign message).drop (HEAD_LEN + SALT_LEN))
        ((sk.sig_bytelen : Int) - HEAD_LEN - SALT_LEN) sk.n).map (fun x => x % Q) := rfl
  rw [hs1] at hx
  obtain ⟨y, _, rfl⟩ := List.mem_map.mp hx
  refine ⟨Int.emod_nonneg y (by norm_num [Q]), ?_⟩
  have := Int.emod_lt_of_pos y (show (0 : Int) < Q by norm_num [Q])
  simpa [Q] using this

theorem generate_attestation_s1_range_witness :
    (12284 : Int) ∈ (generate_attestation decompressC3 1 40 skC3 [0]).s1 ∧
      (0 ≤ (12284 : Int) ∧ (12284 : Int) < 12289) :=
  ⟨by decide, generate_attestation_s1_range decompressC3 1 40 skC3 [0] 12284 (by decide)⟩

/-- C4 counterexample: on a two-byte signature with `HEAD_LEN = 1` and
`SALT_LEN = 40`, `generate_attestation` does not fail; Python slice
semantics silently truncate the salt to the single available byte (shown
by the point hasher receiving a length-1 salt). -/
theorem generate_attestation_short_counterexample :
    (skShort.sign [0]).length < 1 + 40 ∧
      generate_attestation decompressNil 1 40 skShort [0] =
        { s1 := [], pk := [5], msg_point := [1] } :=
  ⟨by decide, by decide⟩

/-- C4 amended: a signature shorter than `HEAD_LEN + SALT_LEN` does not
cause a failure; the salt slice silently truncates to all bytes past
the header and the coefficient slice to the empty byte string. -/
theorem generate_attestation_short_truncates
    (decompress : List Nat → Int → Nat → List Int) (HEAD_LEN SALT_LEN : Nat)
    (sk : SecretKey) (message : List Nat)
    (h : (sk.sign message).length < HEAD_LEN + SALT_LEN) :
    generate_attestation decompress HEAD_LEN SALT_LEN sk message =
      { s1 := (decompress [] ((sk.sig_bytelen : Int) - HEAD_LEN - SALT_LEN) sk.n).map
          (fun x => x % Q),
        pk := sk.h,
        msg_point := sk.hash_to_point message ((sk.sign message).drop HEAD_LEN) } := by
  have h1 : (sk.sign message).drop (HEAD_LEN + SALT_LEN) = [] :=
    List.drop_eq_nil_of_le (by omega)
  have h2 : ((sk.sign message).drop HEAD_LEN).take SALT_LEN =
      (sk.sign message).drop HEAD_LEN :=
    List.take_of_length_le (by rw [List.length_drop]; omega)
  have hdef : generate_attestation decompress HEAD_LEN SALT_LEN sk message =
      { s1 := (decompress ((sk.sign message).drop (HEAD_LEN + SALT_LEN))
            ((sk.sig_bytelen : Int) - HEAD_LEN - SALT_LEN) sk.n).map (fun x => x % Q),
        pk := sk.h,
        msg_point := sk.hash_to_point message
          (((sk.sign message).drop HEAD_LEN).take SALT_LEN) } := rfl
  rw [hdef, h1, h2]

theorem generate_attestation_short_truncates_witness :
    (skShort.sign [0]).length < 1 + 40 ∧
      generate_attestation decompressNil 1 40 skShort [0] =
        { s1 := (decompressNil [] ((skShort.sig_bytelen : Int) - 1 - 40) skShort.n).map
            (fun x => x % Q),
          pk := skShort.h,
          msg_point := skShort.hash_to_point [0] ((skShort.sign [0]).drop 1) } :=
  ⟨by decide, generate_attestation_short_truncates decompressNil 1 40 skShort [0] (by decide)⟩

/-- C5 counterexample: a record list containing a negative element does
not make `format_args` fail; Python's `hex` renders `-1` as `"-0x1"` and
the serializer returns a normal JSON array. -/
theorem format_args_negative_no_error :
    format_args [attNeg] 7 = "[\"0x1\", \"0x1\", \"-0x1\", \"0x0\", \"0x0\", \"0x7\"]" := by
  decide

/-- C5 amended: `format_args` raises no error on any record list; a
negative element is rendered with Python's signed hexadecimal form
`-0x...`, and even then the output still decodes back to exactly the
records and dimension. -/
theorem format_args_total_even_negative :
    (∀ (args : List Attestation) (n : Nat),
      decodeOutput (format_args args n) = some (args, n)) ∧
      pyHex (-1) = "-0x1" :=
  ⟨decodeOutput_format_args, by decide⟩

/-- C6 counterexample: for one record of three length-512 vectors and
dimension 512, the serialized array has 1541 hex-string elements, not the
1542 the specification computes (`1 + (1+512+1+512+1+512) + 1 = 1541`). -/
theorem format_args_token_count_counterexample :
    (formatTokens [attRep512] 512).length = 1541 ∧
      (formatTokens [attRep512] 512).length ≠ 1542 := by
  have h : (formatTokens [attRep512] 512).length = 2 + [attRep512].length * (3 + 3 * 512) :=
    formatTokens_length [attRep512] 512 attRep512_lengths
  constructor
  · rw [h]; decide
  · rw [h]; decide

/-- C6 amended: the serialized token list always starts with hex of the
record count and ends with hex of the dimension; when every record's
three vectors have length `n` the array has `1 + k*(3 + 3n) + 1`
elements — in particular 1541 elements with first element `"0x1"` and
last element `"0x200"` for `n = 512`, `k = 1`. -/
theorem format_args_shape (args : List Attestation) (n : Nat) :
    (formatTokens args n).head? = some (pyHex (args.length : Int)) ∧
    (formatTokens args n).getLast? = some (pyHex (n : Int)) ∧
    ((∀ a ∈ args, a.s1.length = n ∧ a.pk.length = n ∧ a.msg_point.length = n) →
      (formatTokens args n).length = 2 + args.length * (3 + 3 * n)) ∧
    ((formatTokens [attRep512] 512).length = 1541 ∧
      (formatTokens [attRep512] 512).head? = some "0x1" ∧
      (formatTokens [attRep512] 512).getLast? = some "0x200") := by
  refine ⟨formatTokens_head args n, formatTokens_getLast args n,
    formatTokens_length args n, ?_, ?_, ?_⟩
  · have h : (formatTokens [attRep512] 512).length =
        2 + [attRep512].length * (3 + 3 * 512) :=
      formatTokens_length [attRep512] 512 attRep512_lengths
    rw [h]; decide
  · rw [formatTokens_head [attRep512] 512]; decide
  · rw [formatTokens_getLast [attRep512] 512]; decide

theorem format_args_shape_witness :
    (∀ a ∈ [attOne], a.s1.length = 1 ∧ a.pk.length = 1 ∧ a.msg_point.length = 1) ∧
      (formatTokens [attOne] 1).length = 2 + [attOne].length * (3 + 3 * 1) :=
  ⟨by decide, (format_args_shape [attOne] 1).2.2.1 (by decide)⟩

/-- C7: on the empty record list, `format_args` returns exactly the
two-element JSON array of `"0x0"` and the hex rendering of the
dimension — concretely `["0x0", "0x12"]` for dimension 18. -/
theorem format_args_empty :
    (∀ n : Nat, format_args [] n = jsonDumpsStrings ["0x0", pyHex (n : Int)]) ∧
      format_args [] 18 = "[\"0x0\", \"0x12\"]" := by
  constructor
  · intro n
    show jsonDumpsStrings ((serializedInts [] n).map pyHex) =
      jsonDumpsStrings ["0x0", pyHex (n : Int)]
    have hs : serializedInts [] n = [(0 : Int), (n : Int)] := by
      simp [serializedInts]
    rw [hs]
    show jsonDumpsStrings [pyHex 0, pyHex (n : Int)] =
      jsonDumpsStrings ["0x0", pyHex (n : Int)]
    have h0 : pyHex 0 = "0x0" := by decide
    rw [h0]
  · decide

/-- C8: the `msg_point` of a record built by `generate_attestation` is
the point hash of the message with exactly the salt slice
`signature[HEAD_LEN : HEAD_LEN + SALT_LEN]` of the same signature —
never a fresh salt. -/
theorem generate_attestation_msg_point_salt
    (decompress : List Nat → Int → Nat → List Int) (HEAD_LEN SALT_LEN : Nat)
    (sk : SecretKey) (message : List Nat) :
    (generate_attestation decompress HEAD_LEN SALT_LEN sk message).msg_point =
      sk.hash_to_point message
        (((sk.sign message).drop HEAD_LEN).take ((HEAD_LEN + SALT_LEN) - HEAD_LEN)) := by
  have h : (HEAD_LEN + SALT_LEN) - HEAD_LEN = SALT_LEN := by omega
  rw [h]
  rfl

/-- C9: when the signature has the padded length `sig_bytelen` (the
library's invariant), the expected-byte-length argument that
`generate_attestation` passes to the decompressor equals the signature's
total byte length minus `HEAD_LEN` minus `SALT_LEN`. -/
theorem generate_attestation_expected_bytelen
    (decompress : List Nat → Int → Nat → List Int) (HEAD_LEN SALT_LEN : Nat)
    (sk : SecretKey) (message : List Nat)
    (h : (sk.sign message).length = sk.sig_bytelen) :
    generate_attestation decompress HEAD_LEN SALT_LEN sk message =
      { s1 := (decompress ((sk.sign message).drop (HEAD_LEN + SALT_LEN))
            (((sk.sign message).length : Int) - HEAD_LEN - SALT_LEN) sk.n).map
          (fun x => x % Q),
        pk := sk.h,
        msg_point := sk.hash_to_point message
          (((sk.sign message).drop HEAD_LEN).take SALT_LEN) } := by
  rw [h]
  rfl

theorem generate_attestation_expected_bytelen_witness :
    (skFull.sign [0]).length = skFull.sig_bytelen ∧
      generate_attestation decompressLen 1 2 skFull [0] =
        { s1 := (decompressLen ((skFull.sign [0]).drop (1 + 2))
              (((skFull.sign [0]).length : Int) - 1 - 2) skFull.n).map (fun x => x % Q),
          pk := skFull.h,
          msg_point := skFull.hash_to_point [0] (((skFull.sign [0]).drop 1).take 2) } :=
  ⟨by decide, generate_attestation_expected_bytelen decompressLen 1 2 skFull [0] (by decide)⟩

/-- C10: `generate_attestations` builds one capability `keygen n` and
returns exactly `k` records, the `i`-th built from the message
`"message #i"`, and every record carries that one capability's public
key vector `h`. -/
theorem generate_attestations_structure (keygen : Nat → SecretKey)
    (decompress : List Nat → Int → Nat → List Int)
    (HEAD_LEN SALT_LEN : Nat) (n k : Nat) :
    (generate_attestations keygen decompress HEAD_LEN SALT_LEN n k).length = k ∧
    (∀ i, i < k →
      (generate_attestations keygen decompress HEAD_LEN SALT_LEN n k)[i]? =
        some (generate_attestation decompress HEAD_LEN SALT_LEN (keygen n) (msgBytes i))) ∧
    (∀ r ∈ generate_attestations keygen decompress HEAD_LEN SALT_LEN n k,
      r.pk = (keygen n).h) := by
  refine ⟨?_, ?_, ?_⟩
  · simp [generate_attestations]
  · intro i hi
    simp [generate_attestations, List.getElem?_map, List.getElem?_range, hi]
  · intro r hr
    simp only [generate_attestations, List.mem_map] at hr
    obtain ⟨i, _, rfl⟩ := hr
    rfl

theorem generate_attestations_structure_witness :
    1 < 2 ∧
      (generate_attestations keygenW decompressLen 1 2 5 2)[1]? =
        some (generate_attestation decompressLen 1 2 (keygenW 5) (msgBytes 1)) :=
  ⟨by decide, (generate_attestations_structure keygenW decompressLen 1 2 5 2).2.1 1 (by decide)⟩
